import Mathlib
/-!
Verification of `prefgen.py`, a generator that parses an AsciiDoc-like
settings description into a tree of preference items and renders Android
resource and Java source files from it.

The embedding models Python 2 strings as lists of characters (`Str`).
Each definition mirrors one function or code region of `src/prefgen.py`;
fallible operations (list indexing that can raise `IndexError`, tuple
unpacking that can raise `ValueError`) are modelled with `Option`, where
`none` stands for the uncaught exception that aborts the program.
-/

/-- Python 2 byte strings, modelled as lists of characters. -/
abbrev Str := List Char

/-- Characters removed by Python's `str.strip()` with no arguments. -/
def pyIsSpace (c : Char) : Bool :=
  c = ' ' || c = '\t' || c = '\n' || c = '\x0d' || c = '\x0b' || c = '\x0c'

/-- Python `s.strip()`: drop whitespace from both ends. -/
def pyStrip (s : Str) : Str :=
  ((s.dropWhile pyIsSpace).reverse.dropWhile pyIsSpace).reverse

/-- Python `s.lower()` (ASCII, which is all `str.lower` affects on byte strings). -/
def pyLower (s : Str) : Str := s.map Char.toLower

/-- Python `s.upper()` (ASCII). -/
def pyUpper (s : Str) : Str := s.map Char.toUpper

/-- Python `s.startswith(p)`. -/
def pyStartsWith (s p : Str) : Bool := p.isPrefixOf s

/-- Python `s.endswith(p)`. -/
def pyEndsWith (s p : Str) : Bool := p.isSuffixOf s

/-- Python `s.split(sep)` for a one-character separator: splits at every
occurrence, keeping empty pieces (so the result is always nonempty). -/
def pySplitSep (sep : Char) : Str → List Str
  | [] => [[]]
  | c :: cs =>
    match pySplitSep sep cs with
    | [] => []
    | r :: rs => if c = sep then [] :: r :: rs else (c :: r) :: rs

/-- Python `s.split(sep, 1)`: the part before the first separator, and the
rest (`none` when the separator does not occur, in which case two-target
tuple unpacking raises `ValueError`). -/
def pySplit1 (sep : Char) : Str → Str × Option Str
  | [] => ([], none)
  | c :: cs =>
    if c = sep then ([], some cs)
    else
      let r := pySplit1 sep cs
      (c :: r.1, r.2)

/-- Membership in Python 2's `string.punctuation`
(the 32 ASCII printable non-alphanumeric, non-space characters). -/
def isPunct (c : Char) : Bool :=
  (33 ≤ c.toNat && c.toNat ≤ 47) || (58 ≤ c.toNat && c.toNat ≤ 64) ||
  (91 ≤ c.toNat && c.toNat ≤ 96) || (123 ≤ c.toNat && c.toNat ≤ 126)

/-- Python 2 `str <= str`: bytewise lexicographic comparison
(our inputs are ASCII, where bytes and code points agree). -/
def pyStrLE : Str → Str → Bool
  | [], _ => true
  | _ :: _, [] => false
  | a :: as, b :: bs =>
    if a.toNat < b.toNat then true
    else if b.toNat < a.toNat then false
    else pyStrLE as bs

/-- `JAVA_KEYWORDS` from prefgen.py (the keys of `JAVA_KEYWORDS_DICT`). -/
def JAVA_KEYWORDS : List Str :=
  [ "abstract", "assert", "boolean", "break", "byte",
    "case", "catch", "char", "class", "const", "continue", "default", "do",
    "double", "else", "enum", "export", "extends", "final", "finally",
    "float", "for", "goto", "if", "implements", "import", "instanceof",
    "int", "interface", "long", "native", "new", "package", "private",
    "protected", "public", "return", "short", "static", "strictfp",
    "super", "switch", "synchronized", "this", "throw", "throws",
    "transient", "try", "void", "volatile", "while" ].map String.data

/-- `makeKey` from prefgen.py: lowercase, delete punctuation, spaces to
underscores. -/
def makeKey (s : Str) : Str :=
  (((pyLower s).filter (fun c => !(isPunct c))).map
    (fun c => if c = ' ' then '_' else c))

/-- The slug computed inside `makeStringRef` before the keyword check:
lowercase, delete punctuation, split on single spaces, keep at most the
first 5 pieces, join with underscores. -/
def makeSlug (s : Str) : Str :=
  List.intercalate (("_").data)
    ((pySplitSep ' ' ((pyLower s).filter (fun c => !(isPunct c)))).take 5)

/-- `makeStringRef` from prefgen.py: the slug, wrapped in underscores when
it collides with a Java keyword. -/
def makeStringRef (s : Str) : Str :=
  if makeSlug s ∈ JAVA_KEYWORDS then '_' :: makeSlug s ++ ("_").data
  else makeSlug s

/-- Python `str.capitalize()` (ASCII): first character uppercased, the
rest lowercased. -/
def capitalizeA : Str → Str
  | [] => []
  | c :: cs => Char.toUpper c :: pyLower cs

/-- Helper for `makeVar`: the generator in the source yields `lower` once
(only when `initialLower`) and `capitalize` forever after, and is consumed
only by nonempty components; empty components render as an underscore. -/
def makeVarAux (initialLower first : Bool) : List Str → List Str
  | [] => []
  | x :: xs =>
    if x = [] then ("_").data :: makeVarAux initialLower first xs
    else (if first && initialLower then pyLower x else capitalizeA x) ::
      makeVarAux initialLower false xs

/-- `makeVar` from prefgen.py: snake case to camel case. -/
def makeVar (s : Str) (initialLower : Bool) : Str :=
  (makeVarAux initialLower true (pySplitSep '_' s)).flatten

/-- Python `s[0:-n]` for positive `n`: drop the last `n` characters
(empty when `n` is at least the length). -/
def pyDropLast (n : Nat) (s : Str) : Str := s.take (s.length - n)

/-- `stripDot` from prefgen.py: remove one trailing period. -/
def stripDot (s : Str) : Str :=
  if pyEndsWith s ((".").data) then s.dropLast else s

/-- One parsed markup item (`class Item` of prefgen.py).  All `ATTRS`
fields start as the empty string; `type'` stands for the Python attribute
`type` (a Lean reserved word).  `enumValuesList` and `enumName` hold what
the source stores by rebinding `enumValues` to a list and adding an
`enumName` attribute during the fixup pass; `items` (the children) live in
a separate `ItemTree` type because tree linking happens after scanning. -/
structure Item where
  level : Nat
  title : Str
  key : Str
  defaultValue : Str
  type' : Str
  summary : Str
  help : Str
  dialogLayout : Str
  enumValues : Str
  listItems : List Str
  enumValuesList : List Str
  enumName : Str
deriving DecidableEq

/-- `Item.LEVEL_ITEM`: the leaf level. -/
def LEVEL_ITEM : Nat := 4

/-- `Item.BOOLEANS`: title suffixes marking a checkbox leaf. -/
def BOOLEANS : List Str := [ "(Y/N)", "(T/F)", "(ON/OFF)" ].map String.data

/-- The `for boolean in self.BOOLEANS` loop of `Item.__init__`: the first
suffix of `BOOLEANS` (in order) that the uppercased title ends with. -/
def boolSuffixMatch (title : Str) : Option Str :=
  if pyEndsWith (pyUpper title) (("(Y/N)").data) then some (("(Y/N)").data)
  else if pyEndsWith (pyUpper title) (("(T/F)").data) then some (("(T/F)").data)
  else if pyEndsWith (pyUpper title) (("(ON/OFF)").data) then some (("(ON/OFF)").data)
  else none

/-- An item with every `ATTRS` field set to the empty string, as at the
start of `Item.__init__`. -/
def blankItem (level : Nat) : Item :=
  { level := level, title := [], key := [], defaultValue := [], type' := [],
    summary := [], help := [], dialogLayout := [], enumValues := [],
    listItems := [], enumValuesList := [], enumName := [] }

/-- `Item.TYPES`: the type string per level, `none` marking the leaf level
whose type is refined by the boolean-suffix check. -/
def TYPES : List (Option Str) :=
  [some [], some (("PreferenceScreen").data), some (("PreferenceCategory").data), none]

/-- `Item.__init__(line)`: split the header line at the first space, take
the marker length as the level, and classify.  `none` models the uncaught
`ValueError` when the line has no space, and the uncaught `IndexError`
when `level - 1` falls outside `TYPES` (level 5 or more); a level-0 line
cannot reach here from the scanner (the line starts with a marker
character), but Python's `TYPES[-1]` would select the leaf branch, which
we mirror. -/
def mkItem (line : Str) : Option Item :=
  match pySplit1 ' ' line with
  | (_, none) => none
  | (lvl, some title) =>
    let level := lvl.length
    match (if level = 0 then some none else TYPES.get? (level - 1)) with
    | none => none
    | some (some ty) => some { blankItem level with type' := ty, title := title }
    | some none =>
      match boolSuffixMatch title with
      | some b =>
        some { blankItem level with
            type' := ("CheckBoxPreference").data,
            defaultValue := ("false").data,
            title := pyStrip (pyDropLast b.length title) }
      | none =>
        some { blankItem level with
            type' := ("EditTextPreference").data,
            title := title }

/-- `append` inside `Item.addText`: join with a space unless empty. -/
def pyAppendText (start more : Str) : Str :=
  if start.length > 0 then start ++ ' ' :: more else more

/-- `Item.addText`: accumulate wrapped text into the field selected by the
mode (1 = title, 2 = summary, 3 = help; anything else is ignored). -/
def addText (it : Item) (mode : Nat) (line : Str) : Item :=
  if mode = 1 then { it with title := pyAppendText it.title line }
  else if mode = 2 then { it with summary := pyAppendText it.summary line }
  else if mode = 3 then { it with help := pyAppendText it.help line }
  else it

/-- The mutable state of the line-scanning loop in `parseAsciiDoc`.
`linRev` is the `linear` list with the most recent item first (the source
only ever touches `linear[-1]`, the head here). -/
structure ScanState where
  linRev : List Item
  mode : Nat
  inComment : Bool
  keys : List Str
deriving DecidableEq

/-- The recognized directive names: `Item.ATTRS` in order.  `level'` and
`typeA` stand for the Python attribute names `level` and `type`. -/
inductive AttrName where
  | level' | title | key | defaultValue | typeA | summary | help
  | dialogLayout | enumValues
deriving DecidableEq

/-- The `for attr in Item.ATTRS` loop: the first attribute name `a` (in
`ATTRS` order) such that the line starts with `:a:`. -/
def findAttr (line : Str) : Option AttrName :=
  if pyStartsWith line ((":level:").data) then some .level'
  else if pyStartsWith line ((":title:").data) then some .title
  else if pyStartsWith line ((":key:").data) then some .key
  else if pyStartsWith line ((":defaultValue:").data) then some .defaultValue
  else if pyStartsWith line ((":type:").data) then some .typeA
  else if pyStartsWith line ((":summary:").data) then some .summary
  else if pyStartsWith line ((":help:").data) then some .help
  else if pyStartsWith line ((":dialogLayout:").data) then some .dialogLayout
  else if pyStartsWith line ((":enumValues:").data) then some .enumValues
  else none

/-- `line.split(':')[2].strip()`: the directive's stored value.  A matched
line starts with `:name:`, so the split has at least three pieces and the
index cannot actually fail. -/
def directiveValue (line : Str) : Str :=
  pyStrip ((pySplitSep ':' line).getD 2 [])

/-- The characters of each recognized attribute name (`Item.ATTRS`). -/
def attrStr : AttrName → Str
  | .level' => ("level").data
  | .title => ("title").data
  | .key => ("key").data
  | .defaultValue => ("defaultValue").data
  | .typeA => ("type").data
  | .summary => ("summary").data
  | .help => ("help").data
  | .dialogLayout => ("dialogLayout").data
  | .enumValues => ("enumValues").data

/-- `linear[-1].__dict__[attr] = value`.  A `:level:` directive would
store a string in the integer `level` field (Python 2 never complains and
would later compare that string against integers in the tree builder);
such documents fall outside this typed embedding and are modelled as a
failure. -/
def setAttr (a : AttrName) (v : Str) (it : Item) : Option Item :=
  match a with
  | .level' => none
  | .title => some { it with title := v }
  | .key => some { it with key := v }
  | .defaultValue => some { it with defaultValue := v }
  | .typeA => some { it with type' := v }
  | .summary => some { it with summary := v }
  | .help => some { it with help := v }
  | .dialogLayout => some { it with dialogLayout := v }
  | .enumValues => some { it with enumValues := v }

/-- One iteration of the scanning loop of `parseAsciiDoc`, applied to an
already-stripped line.  `none` models the uncaught `IndexError` from
`linear[-1]` when no item exists yet. -/
def scanStripped (st : ScanState) (line : Str) : Option ScanState :=
  if line = [] then
    some { st with mode := if 0 < st.mode && st.mode ≤ 2 then st.mode + 1 else st.mode }
  else if pyStartsWith line (("//").data) then
    some { st with inComment := !st.inComment }
  else
    match line with
    | [] => none
    | c :: _ =>
      if c = '*' then
        match st.linRev with
        | [] => none
        | it :: rest =>
          some { st with linRev :=
            { it with listItems := it.listItems ++ [stripDot (pyStrip (line.drop 1))],
                      type' := ("ListPreference").data } :: rest }
      else if c = ':' then
        if st.mode ≠ 0 then
          if st.inComment then
            if pyStartsWith line ((":key: ").data) then
              some { st with keys := st.keys ++ [line.drop 6] }
            else some st
          else
            match findAttr line with
            | none => some st
            | some a =>
              match st.linRev with
              | [] => none
              | it :: rest =>
                (setAttr a (directiveValue line) it).map
                  (fun it2 => { st with linRev := it2 :: rest })
        else some st
      else if c = '=' || c = '#' then
        (mkItem line).map (fun it => { st with linRev := it :: st.linRev, mode := 1 })
      else
        match st.linRev with
        | [] => none
        | it :: rest => some { st with linRev := addText it st.mode line :: rest }

/-- One raw input line: `line = line.strip()` then the branch dispatch. -/
def scanLine (st : ScanState) (l : Str) : Option ScanState :=
  scanStripped st (pyStrip l)

/-- The scanning loop over the remaining lines. -/
def scanLines : ScanState → List Str → Option ScanState
  | st, [] => some st
  | st, l :: ls =>
    match scanLine st l with
    | none => none
    | some st2 => scanLines st2 ls

/-- The scanner's initial state. -/
def initState : ScanState := { linRev := [], mode := 0, inComment := false, keys := [] }

/-- The whole first pass of `parseAsciiDoc` over the document's lines. -/
def scanDoc (lines : List Str) : Option ScanState := scanLines initState lines

/-- Fixup stage 1 (`parseAsciiDoc` second loop): default the key from
the title when no explicit key was set. -/
def fixupKey (it : Item) : Item :=
  if it.key = [] then { it with key := makeKey it.title } else it

/-- Fixup stage 2: Android style removes the final period from the
summary. -/
def fixupSummary (it : Item) : Item := { it with summary := stripDot it.summary }

/-- Fixup stage 3: clear unused title/summary on root, screen and
category items (the category keeps its title). -/
def fixupClear (it : Item) : Item :=
  if it.type' = [] || it.type' = ("PreferenceScreen").data ||
      it.type' = ("PreferenceCategory").data then
    { it with summary := [],
              title := if it.type' ≠ ("PreferenceCategory").data then [] else it.title }
  else it

/-- Fixup stage 4, the list-default scan.  The source initializes `n = 0`
and never increments it inside `for li in item.listItems`, so whenever
any entry ends in `(default)` the stored index is the string `0` and the
nine-character suffix is stripped from entry 0. -/
def fixupListDefault (it : Item) : Item :=
  if it.listItems.length > 0 then
    if it.listItems.any (fun li => pyEndsWith li (("(default)").data)) then
      { it with defaultValue := ("0").data,
                listItems :=
                  match it.listItems with
                  | [] => []
                  | x :: xs => pyStrip (pyDropLast 9 x) :: xs }
    else { it with defaultValue := ("0").data }
  else it

/-- Fixup stage 5: split an explicit `enumValues` directive on commas and
derive the enum type name from the title. -/
def fixupEnum (it : Item) : Item :=
  if it.enumValues ≠ [] then
    { it with enumValuesList := (pySplitSep ',' it.enumValues).map pyStrip,
              enumName := makeVar ((it.title).map (fun c => if c = ' ' then '_' else c))
                            false ++ ("Enum").data }
  else it

/-- The per-item fixup at the top of the second loop of `parseAsciiDoc`:
the five stages above in source order. -/
def fixupItem (it : Item) : Item :=
  fixupEnum (fixupListDefault (fixupClear (fixupSummary (fixupKey it))))

/-- `strings[s] = makeStringRef(s)` on a dictionary modelled as an
association list in insertion order; re-inserting an existing key leaves
the list unchanged up to the (identical) stored value. -/
def dictInsert (d : List (Str × Str)) (k v : Str) : List (Str × Str) :=
  if d.any (fun p => p.1 = k) then
    d.map (fun p => if p.1 = k then (k, v) else p)
  else d ++ [(k, v)]

/-- The `for s in [item.title, item.summary]` registration loop, applied
to an item that has already gone through `fixupItem` (the source registers
right after clearing unused text; the later list/enum fixups do not touch
`title` or `summary`, so registering from the fully fixed item is the
same). -/
def registerItemStrings (d : List (Str × Str)) (it : Item) : List (Str × Str) :=
  let d1 := if it.title ≠ [] then dictInsert d it.title (makeStringRef it.title) else d
  if it.summary ≠ [] then dictInsert d1 it.summary (makeStringRef it.summary) else d1

/-- The nested tree of items (`Item.items` in the source). -/
inductive ItemTree where
  | node : Item → List ItemTree → ItemTree

/-- The item at the root of a subtree. -/
def ItemTree.rootItem : ItemTree → Item
  | .node it _ => it

/-- The level of the item at the root of a subtree. -/
def ItemTree.rootLevel : ItemTree → Nat
  | .node it _ => it.level

/-- One entry of the open-section stack: an item still open for children,
together with the children collected for it so far.  The source pushes
the mutable item itself and appends into its `items` list; here the
children are carried beside the item and wrapped into a `ItemTree.node` when
the entry is popped (nothing is ever appended to an entry after it leaves
the stack, so the result is the same). -/
structure Frame where
  item : Item
  children : List ItemTree

/-- The `while item.level <= stack[-1].level: stack.pop()` loop, examining
the frame `f` on top of the remaining stack `fs`.  Evaluating `stack[-1]`
with an empty stack raises `IndexError`, modelled by `none`; a popped
frame's finished subtree is appended to the children of the frame below. -/
def popSteps (it : Item) (f : Frame) : List Frame → Option (List Frame)
  | [] => if it.level ≤ f.item.level then none else some [f]
  | g :: gs =>
    if it.level ≤ f.item.level then
      popSteps it { g with children := g.children ++ [ItemTree.node f.item f.children] } gs
    else some (f :: g :: gs)

/-- The pop loop on the whole stack. -/
def popLoop (it : Item) : List Frame → Option (List Frame)
  | [] => none
  | f :: fs => popSteps it f fs

/-- One iteration of the tree-linking part of the second loop of
`parseAsciiDoc`, for an item other than the first: pop, then attach and
conditionally push. -/
def buildStep (stack : List Frame) (it : Item) : Option (List Frame) :=
  match popLoop it stack with
  | none => none
  | some [] => none
  | some (top :: rest) =>
    if it.level ≥ top.item.level then
      if it.level > top.item.level && it.level < LEVEL_ITEM then
        some ({ item := it, children := [] } :: top :: rest)
      else
        some ({ top with children := top.children ++ [ItemTree.node it []] } :: rest)
    else some (top :: rest)

/-- The tree-linking loop over the items after the first. -/
def buildFrames : List Frame → List Item → Option (List Frame)
  | stack, [] => some stack
  | stack, it :: its =>
    match buildStep stack it with
    | none => none
    | some stack2 => buildFrames stack2 its

/-- Fold the stack left at the end of the loop into the finished tree:
each entry still open is closed and attached to the entry below it. -/
def collapse (f : Frame) : List Frame → ItemTree
  | [] => ItemTree.node f.item f.children
  | g :: gs => collapse { g with children := g.children ++ [ItemTree.node f.item f.children] } gs

/-- The whole tree-linking pass: the first item becomes the root and the
only initial stack entry; `none` is the uncaught `IndexError` from the pop
loop, `some none` the `root = None` result on an empty item list. -/
def assemble : List Item → Option (Option ItemTree)
  | [] => some none
  | r :: rest =>
    match buildFrames [{ item := r, children := [] }] rest with
    | none => none
    | some [] => none
    | some (f :: fs) => some (some (collapse f fs))

/-- The `Parsed` result structure of prefgen.py. -/
structure Parsed where
  root : Option ItemTree
  strings : List (Str × Str)
  linear : List Item
  keys : List Str

/-- `parseAsciiDoc`: scan the lines, fix up every item, build the string
table, and link the tree.  The source interleaves fixup and linking in a
single loop over `linear`; the two phases touch disjoint data, and on the
runs where linking raises (`none`) no `Parsed` value escapes either way,
so the sequential composition is the same function. -/
def parseDoc (lines : List Str) : Option Parsed :=
  match scanDoc lines with
  | none => none
  | some st =>
    let fixed := (st.linRev.reverse).map fixupItem
    let strings := fixed.foldl registerItemStrings []
    match assemble fixed with
    | none => none
    | some r => some { root := r, strings := strings, linear := fixed, keys := st.keys }

/-- Insert into a list sorted by `pyStrLE` (the comparison Python's
`sorted` uses on byte strings). -/
def insertSorted (x : Str) : List Str → List Str
  | [] => [x]
  | y :: ys => if pyStrLE x y then x :: y :: ys else y :: insertSorted x ys

/-- Python `sorted` on a list of byte strings. -/
def pySort (l : List Str) : List Str := l.foldr insertSorted []

/-- One rendered line of the string table:
`'    <string name="%s">%s</string>\n' % (v, k)`. -/
def stringEntryLine (p : Str × Str) : Str :=
  ("    <string name=\"").data ++ p.2 ++ ("\">").data ++ p.1 ++ ("</string>\n").data

/-- The `<string>` entries of `outputResourceStringsXml`: one rendered
line per table entry, emitted in sorted order. -/
def stringEntryLines (strings : List (Str × Str)) : List Str :=
  pySort (strings.map stringEntryLine)

/-- The key-constant section of `outputSettingsClass`: the leaf items'
keys are appended to the parsed comment-key list, and one constant line is
written per key in sorted order. -/
def settingsKeyLines (p : Parsed) : List Str :=
  let items := p.linear.filter (fun i => i.level = LEVEL_ITEM)
  let allKeys := p.keys ++ items.map (fun i => i.key)
  (pySort allKeys).map (fun key =>
    ("    public static final String PREF_").data ++
      pyUpper (key.map (fun c => if c = '.' then '_' else c)) ++
      (" = \"").data ++ key ++ ("\";\n").data)

/-- Spec wording: pop while the top's level is greater than or equal to
the current item's level (popping the stack empty is a failure). -/
def specPopSteps (it : Item) (f : Frame) : List Frame → Option (List Frame)
  | [] => if f.item.level ≥ it.level then none else some [f]
  | g :: gs =>
    if f.item.level ≥ it.level then
      specPopSteps it { g with children := g.children ++ [ItemTree.node f.item f.children] } gs
    else some (f :: g :: gs)

/-- Spec wording: the pop phase on the whole stack. -/
def specPop (it : Item) : List Frame → Option (List Frame)
  | [] => none
  | f :: fs => specPopSteps it f fs

/-- Spec wording: after popping, if the resulting top's level is less
than or equal to the current item's level, the item becomes that top's
child; it is pushed only if strictly deeper than its new parent and of
level strictly below the leaf level 4. -/
def specStep (stack : List Frame) (it : Item) : Option (List Frame) :=
  match specPop it stack with
  | none => none
  | some [] => none
  | some (top :: rest) =>
    if top.item.level ≤ it.level then
      if top.item.level < it.level && it.level < 4 then
        some ({ item := it, children := [] } :: top :: rest)
      else
        some ({ top with children := top.children ++ [ItemTree.node it []] } :: rest)
    else some (top :: rest)

/-- Spec wording: fold the spec step over the items after the first. -/
def specFrames : List Frame → List Item → Option (List Frame)
  | stack, [] => some stack
  | stack, it :: its =>
    match specStep stack it with
    | none => none
    | some stack2 => specFrames stack2 its

/-- Spec wording: the first item becomes the root and is pushed; the
remaining items are folded through the spec step. -/
def specAssemble : List Item → Option (Option ItemTree)
  | [] => some none
  | r :: rest =>
    match specFrames [{ item := r, children := [] }] rest with
    | none => none
    | some [] => none
    | some (f :: fs) => some (some (collapse f fs))

/-- The keys of the string table, in insertion order. -/
def keysOf (d : List (Str × Str)) : List Str := d.map Prod.fst

/-- The nonempty strings an item contributes to the table, in
registration order. -/
def itemStrings (it : Item) : List Str :=
  [it.title, it.summary].filter (fun s => s ≠ [])

/-- First occurrences of a string sequence, folded left over an
accumulator of already-seen strings. -/
def firstOcc (acc : List Str) : List Str → List Str
  | [] => acc
  | s :: ss => firstOcc (if s ∈ acc then acc else acc ++ [s]) ss

/-- The distinct nonempty title/summary strings of an item sequence, in
first-occurrence order. -/
def distinctStrings (items : List Item) : List Str :=
  firstOcc [] ((items.map itemStrings).flatten)

/-- Proper nesting: every child node is strictly deeper (greater level)
than its parent, throughout the tree, hence levels strictly increase
along every root-to-node path. -/
inductive GoodTree : ItemTree → Prop where
  | node : ∀ (it : Item) (cs : List ItemTree),
      (∀ c ∈ cs, it.level < c.rootLevel) →
      (∀ c ∈ cs, GoodTree c) →
      GoodTree (ItemTree.node it cs)

/-- A stack frame whose collected children are proper subtrees, each
strictly deeper than the frame's own item. -/
def FrameOK (f : Frame) : Prop :=
  (∀ c ∈ f.children, f.item.level < c.rootLevel) ∧ ∀ c ∈ f.children, GoodTree c

/-- The open-section stack invariant: every frame is `FrameOK` and frame
levels strictly increase from the bottom of the stack to its top. -/
def StackOK : List Frame → Prop
  | [] => True
  | [f] => FrameOK f
  | f :: g :: r => FrameOK f ∧ g.item.level < f.item.level ∧ StackOK (g :: r)

/-- The item of the bottom frame of the nonempty stack `f :: fs`. -/
def bottomItem (f : Frame) : List Frame → Item
  | [] => f.item
  | g :: gs => bottomItem g gs

/-- A line that the scanner's branch order would treat as a section
header: after stripping, it starts with `=` or `#`. -/
def isHeaderLine (l : Str) : Bool :=
  match pyStrip l with
  | [] => false
  | c :: _ => c = '=' || c = '#'

/-- A line that the scanner would treat as a list item: after stripping,
it starts with `*`. -/
def isListItemLine (l : Str) : Bool :=
  match pyStrip l with
  | [] => false
  | c :: _ => c = '*'

/-- A document whose leaf carries the list items of the round-trip
example: `["Low", "Medium (default)", "High"]`. -/
def c1doc : List Str :=
  [ "= Top", "==== Choice", "* Low", "* Medium (default)", "* High" ].map String.data

/-- A document for the C3 witness: one root, one screen, one leaf. -/
def c3doc : List Str := [ "= T", "== S", "==== L" ].map String.data

/-- The parse of `c3doc` (total by construction). -/
def c3parsed : Parsed :=
  (parseDoc c3doc).getD { root := none, strings := [], linear := [], keys := [] }

/-- The tree of `c3parsed`. -/
def c3tree : ItemTree := c3parsed.root.getD (ItemTree.node (blankItem 1) [])

/-- A document with a second level-1 header after the root. -/
def c9doc : List Str := [ "= A", "= B" ].map String.data

/-- A document with two leaves titled `Foo` and `foo`: two distinct
strings whose generated identifiers coincide. -/
def c4doc : List Str := [ "= T", "==== Foo", "==== foo" ].map String.data

/-- The parse of `c4doc` (total by construction). -/
def c4parsed : Parsed :=
  (parseDoc c4doc).getD { root := none, strings := [], linear := [], keys := [] }

/-- A document with a `:key:` directive before any header. -/
def c5doc : List Str := [ ":key: foo", "= Top" ].map String.data

/-- The end-to-end C8 scenario: a screen header and one leaf with an
inline `:key: foo` directive, title `Foo Bar.` and a summary ending in a
period. -/
def c8doc : List Str :=
  [ "== Screen", "", "==== Foo Bar.", ":key: foo", "", "The summary text." ].map String.data

/-- A sample item carrying an explicit key. -/
def c8item : Item := { blankItem 4 with title := ("T").data, key := ("x").data }

example : makeKey (("Foo Bar.").data) = ("foo_bar").data := by decide

example : makeStringRef (("import").data) = ("_import_").data := by decide

example : makeStringRef (("a b c d e f g").data) = ("a_b_c_d_e").data := by decide

example : stripDot (("Hi.").data) = ("Hi").data := by decide

example : pySplitSep ':' ((":key: a:b").data) =
    [[], ("key").data, (" a").data, ("b").data] := by decide

theorem fixupSummary_key (it : Item) : (fixupSummary it).key = it.key := rfl

theorem fixupClear_key (it : Item) : (fixupClear it).key = it.key := by
  unfold fixupClear
  split <;> rfl

theorem fixupListDefault_key (it : Item) : (fixupListDefault it).key = it.key := by
  unfold fixupListDefault
  split
  · split <;> rfl
  · rfl

theorem fixupEnum_key (it : Item) : (fixupEnum it).key = it.key := by
  unfold fixupEnum
  split <;> rfl

theorem fixupItem_key (it : Item) :
    (fixupItem it).key = if it.key = [] then makeKey it.title else it.key := by
  unfold fixupItem
  rw [fixupEnum_key, fixupListDefault_key, fixupClear_key, fixupSummary_key]
  unfold fixupKey
  split <;> rfl

theorem fixupListDefault_summary (it : Item) :
    (fixupListDefault it).summary = it.summary := by
  unfold fixupListDefault
  split
  · split <;> rfl
  · rfl

theorem fixupEnum_summary (it : Item) : (fixupEnum it).summary = it.summary := by
  unfold fixupEnum
  split <;> rfl

theorem fixupKey_summary (it : Item) : (fixupKey it).summary = it.summary := by
  unfold fixupKey
  split <;> rfl

theorem fixupKey_title (it : Item) : (fixupKey it).title = it.title := by
  unfold fixupKey
  split <;> rfl

theorem fixupItem_summary (it : Item) :
    (fixupItem it).summary = stripDot it.summary ∨ (fixupItem it).summary = [] := by
  unfold fixupItem
  rw [fixupEnum_summary, fixupListDefault_summary]
  unfold fixupClear
  split
  · exact Or.inr rfl
  · exact Or.inl (by rw [show (fixupSummary (fixupKey it)).summary =
      stripDot (fixupKey it).summary from rfl, fixupKey_summary])

theorem popSteps_eq_spec (it : Item) (f : Frame) (fs : List Frame) :
    popSteps it f fs = specPopSteps it f fs := by
  induction fs generalizing f with
  | nil => simp [popSteps, specPopSteps, ge_iff_le]
  | cons g gs ih => simp only [popSteps, specPopSteps, ge_iff_le, ih]

theorem buildStep_eq_spec (stack : List Frame) (it : Item) :
    buildStep stack it = specStep stack it := by
  cases stack with
  | nil => rfl
  | cons f fs =>
    simp only [buildStep, specStep, popLoop, specPop, popSteps_eq_spec, ge_iff_le,
      LEVEL_ITEM, gt_iff_lt]

theorem buildFrames_eq_spec (stack : List Frame) (its : List Item) :
    buildFrames stack its = specFrames stack its := by
  induction its generalizing stack with
  | nil => rfl
  | cons it rest ih =>
    simp only [buildFrames, specFrames, buildStep_eq_spec]
    cases specStep stack it with
    | none => rfl
    | some stack2 => exact ih stack2

theorem pyStrLE_trans : ∀ a b c : Str,
    pyStrLE a b = true → pyStrLE b c = true → pyStrLE a c = true
  | [], _, _, _, _ => rfl
  | _ :: _, [], _, h, _ => by simp [pyStrLE] at h
  | _ :: _, _ :: _, [], _, h => by simp [pyStrLE] at h
  | a :: as, b :: bs, c :: cs, h1, h2 => by
    simp only [pyStrLE] at h1 h2 ⊢
    rcases Nat.lt_trichotomy a.toNat b.toNat with hab | hab | hab <;>
      rcases Nat.lt_trichotomy b.toNat c.toNat with hbc | hbc | hbc
    · simp [show a.toNat < c.toNat by omega]
    · simp [show a.toNat < c.toNat by omega]
    · simp [show ¬ b.toNat < c.toNat by omega, show c.toNat < b.toNat by omega] at h2
    · simp [show a.toNat < c.toNat by omega]
    · simp only [show ¬ a.toNat < b.toNat by omega, if_false,
        show ¬ b.toNat < a.toNat by omega] at h1
      simp only [show ¬ b.toNat < c.toNat by omega, if_false,
        show ¬ c.toNat < b.toNat by omega] at h2
      simp only [show ¬ a.toNat < c.toNat by omega, if_false,
        show ¬ c.toNat < a.toNat by omega]
      exact pyStrLE_trans as bs cs h1 h2
    · simp [show ¬ b.toNat < c.toNat by omega, show c.toNat < b.toNat by omega] at h2
    · simp [show ¬ a.toNat < b.toNat by omega, show b.toNat < a.toNat by omega] at h1
    · simp [show ¬ a.toNat < b.toNat by omega, show b.toNat < a.toNat by omega] at h1
    · simp [show ¬ a.toNat < b.toNat by omega, show b.toNat < a.toNat by omega] at h1

theorem pyStrLE_total : ∀ a b : Str, pyStrLE a b = true ∨ pyStrLE b a = true
  | [], _ => Or.inl rfl
  | _ :: _, [] => Or.inr rfl
  | a :: as, b :: bs => by
    simp only [pyStrLE]
    rcases Nat.lt_trichotomy a.toNat b.toNat with h | h | h
    · simp [h]
    · simp only [show ¬ a.toNat < b.toNat by omega, if_false,
        show ¬ b.toNat < a.toNat by omega]
      exact pyStrLE_total as bs
    · simp [h, show ¬ a.toNat < b.toNat by omega]

theorem mem_insertSorted (x y : Str) : ∀ l : List Str,
    (y ∈ insertSorted x l ↔ y = x ∨ y ∈ l)
  | [] => by simp [insertSorted]
  | z :: zs => by
    simp only [insertSorted]
    split
    · simp [or_comm, or_assoc]
    · simp only [List.mem_cons, mem_insertSorted x y zs]
      tauto

theorem insertSorted_length (x : Str) : ∀ l : List Str,
    (insertSorted x l).length = l.length + 1
  | [] => rfl
  | z :: zs => by
    simp only [insertSorted]
    split <;> simp [insertSorted_length x zs]

theorem insertSorted_pairwise (x : Str) : ∀ l : List Str,
    List.Pairwise (fun a b => pyStrLE a b = true) l →
    List.Pairwise (fun a b => pyStrLE a b = true) (insertSorted x l)
  | [], _ => by simp [insertSorted]
  | z :: zs, h => by
    simp only [insertSorted]
    rcases List.pairwise_cons.mp h with ⟨hz, hzs⟩
    split
    · refine List.pairwise_cons.mpr ⟨?_, h⟩
      intro b hb
      rcases List.mem_cons.mp hb with rfl | hb
      · assumption
      · exact pyStrLE_trans x z b (by assumption) (hz b hb)
    · refine List.pairwise_cons.mpr ⟨?_, insertSorted_pairwise x zs hzs⟩
      intro b hb
      rcases (mem_insertSorted x b zs).mp hb with rfl | hb
      · rcases pyStrLE_total b z with h1 | h1
        · exact absurd h1 (by assumption)
        · exact h1
      · exact hz b hb

theorem pySort_length (l : List Str) : (pySort l).length = l.length := by
  induction l with
  | nil => rfl
  | cons x xs ih => simp [pySort, insertSorted_length, List.foldr] at ih ⊢; omega

theorem pySort_pairwise (l : List Str) :
    List.Pairwise (fun a b => pyStrLE a b = true) (pySort l) := by
  induction l with
  | nil => simp [pySort]
  | cons x xs ih => exact insertSorted_pairwise x _ ih

theorem dictInsert_keys (d : List (Str × Str)) (k v : Str) :
    keysOf (dictInsert d k v) = if k ∈ keysOf d then keysOf d else keysOf d ++ [k] := by
  unfold dictInsert
  have hmem : (d.any (fun p => p.1 = k) = true) ↔ k ∈ keysOf d := by
    simp [List.any_eq_true, keysOf, List.mem_map]
  by_cases hk : k ∈ keysOf d
  · rw [if_pos hk, if_pos (hmem.mpr hk)]
    unfold keysOf
    rw [List.map_map]
    apply List.map_congr_left
    intro p _
    by_cases hpk : p.1 = k
    · simp [hpk]
    · simp [hpk]
  · rw [if_neg hk, if_neg (fun h => hk (hmem.mp h))]
    simp [keysOf]

theorem registerItemStrings_keys (d : List (Str × Str)) (it : Item) :
    keysOf (registerItemStrings d it) = firstOcc (keysOf d) (itemStrings it) := by
  unfold registerItemStrings itemStrings
  by_cases ht : it.title = []
  · by_cases hs : it.summary = []
    · simp [ht, hs, firstOcc]
    · simp [ht, hs, firstOcc, dictInsert_keys]
  · by_cases hs : it.summary = []
    · simp [ht, hs, firstOcc, dictInsert_keys]
    · simp only [ht, hs]
      simp only [List.filter, decide_not, ht, hs, decide_eq_true_eq]
      simp [firstOcc, dictInsert_keys, ht, hs]

theorem firstOcc_append (acc : List Str) (l1 l2 : List Str) :
    firstOcc acc (l1 ++ l2) = firstOcc (firstOcc acc l1) l2 := by
  induction l1 generalizing acc with
  | nil => simp [firstOcc]
  | cons s ss ih => simp [firstOcc, ih]

theorem foldl_register_keys (items : List Item) (d : List (Str × Str)) :
    keysOf (items.foldl registerItemStrings d) =
      firstOcc (keysOf d) ((items.map itemStrings).flatten) := by
  induction items generalizing d with
  | nil => simp [firstOcc]
  | cons it rest ih =>
    simp only [List.foldl, List.map, List.flatten, firstOcc_append, ih,
      registerItemStrings_keys]

theorem dictInsert_length (d : List (Str × Str)) (k v : Str) :
    (dictInsert d k v).length = (keysOf (dictInsert d k v)).length := by
  simp [keysOf]

theorem table_length_eq_distinct (items : List Item) :
    (items.foldl registerItemStrings []).length = (distinctStrings items).length := by
  have h := foldl_register_keys items []
  have hlen : (items.foldl registerItemStrings []).length =
      (keysOf (items.foldl registerItemStrings [])).length := by simp [keysOf]
  rw [hlen, h]
  rfl

theorem stackOK_parts (f : Frame) (fs : List Frame) (h : StackOK (f :: fs)) :
    FrameOK f ∧ StackOK fs := by
  cases fs with
  | nil => exact ⟨h, trivial⟩
  | cons g gs => exact ⟨h.1, h.2.2⟩

theorem stackOK_replaceHead (f g : Frame) (fs : List Frame) (hitem : g.item = f.item)
    (hg : FrameOK g) (h : StackOK (f :: fs)) : StackOK (g :: fs) := by
  cases fs with
  | nil => exact hg
  | cons x xs => exact ⟨hg, by rw [hitem]; exact h.2.1, h.2.2⟩

theorem bottomItem_congr (f g : Frame) (hitem : f.item = g.item) :
    ∀ fs : List Frame, bottomItem f fs = bottomItem g fs
  | [] => hitem
  | _ :: _ => rfl

theorem goodTree_close (f : Frame) (hf : FrameOK f) :
    GoodTree (ItemTree.node f.item f.children) :=
  GoodTree.node f.item f.children hf.1 hf.2

theorem frameOK_push (f : Frame) (t : ItemTree) (hf : FrameOK f)
    (hl : f.item.level < t.rootLevel) (ht : GoodTree t) :
    FrameOK { f with children := f.children ++ [t] } := by
  constructor
  · intro c hc
    rcases List.mem_append.mp hc with hc | hc
    · exact hf.1 c hc
    · rw [List.mem_singleton.mp hc]; exact hl
  · intro c hc
    rcases List.mem_append.mp hc with hc | hc
    · exact hf.2 c hc
    · rw [List.mem_singleton.mp hc]; exact ht

theorem bottom_le (fs : List Frame) : ∀ f : Frame, StackOK (f :: fs) →
    (bottomItem f fs).level ≤ f.item.level := by
  induction fs with
  | nil => intro f _; exact Nat.le_refl _
  | cons g gs ih =>
    intro f h
    calc (bottomItem g gs).level ≤ g.item.level := ih g h.2.2
      _ ≤ f.item.level := Nat.le_of_lt h.2.1

theorem collapse_good (fs : List Frame) : ∀ f : Frame, StackOK (f :: fs) →
    GoodTree (collapse f fs) := by
  induction fs with
  | nil => intro f h; exact goodTree_close f h
  | cons g gs ih =>
    intro f h
    simp only [collapse]
    apply ih
    refine stackOK_replaceHead g _ gs rfl ?_ (stackOK_parts f (g :: gs) h).2
    exact frameOK_push g _ (stackOK_parts g gs h.2.2).1 h.2.1
      (goodTree_close f (stackOK_parts f (g :: gs) h).1)

theorem popSteps_ok (it : Item) : ∀ (fs : List Frame) (f : Frame) (st' : List Frame),
    StackOK (f :: fs) → popSteps it f fs = some st' →
    ∃ top rest, st' = top :: rest ∧ StackOK st' ∧ top.item.level < it.level ∧
      bottomItem top rest = bottomItem f fs := by
  intro fs
  induction fs with
  | nil =>
    intro f st' hok hp
    simp only [popSteps] at hp
    split at hp
    · exact absurd hp (by simp)
    · rename_i hlt
      obtain rfl : st' = [f] := (Option.some.inj hp).symm
      exact ⟨f, [], rfl, hok, by omega, rfl⟩
  | cons g gs ih =>
    intro f st' hok hp
    simp only [popSteps] at hp
    split at hp
    · have hgOK : FrameOK { g with children :=
          g.children ++ [ItemTree.node f.item f.children] } :=
        frameOK_push g _ (stackOK_parts g gs hok.2.2).1 hok.2.1 (goodTree_close f hok.1)
      have hok2 : StackOK ({ g with children :=
          g.children ++ [ItemTree.node f.item f.children] } :: gs) :=
        stackOK_replaceHead g _ gs rfl hgOK hok.2.2
      rcases ih _ st' hok2 hp with ⟨top, rest, h1, h2, h3, h4⟩
      refine ⟨top, rest, h1, h2, h3, ?_⟩
      rw [h4]
      exact bottomItem_congr
        { g with children := g.children ++ [ItemTree.node f.item f.children] } g rfl gs
    · rename_i hlt
      obtain rfl : st' = f :: g :: gs := (Option.some.inj hp).symm
      exact ⟨f, g :: gs, rfl, hok, by omega, rfl⟩

theorem buildStep_ok (it : Item) (f : Frame) (fs : List Frame) (st' : List Frame) :
    StackOK (f :: fs) → buildStep (f :: fs) it = some st' →
    ∃ top rest, st' = top :: rest ∧ StackOK st' ∧
      bottomItem top rest = bottomItem f fs := by
  intro hok hb
  simp only [buildStep, popLoop] at hb
  cases hp : popSteps it f fs with
  | none => rw [hp] at hb; exact absurd hb (by simp)
  | some st1 =>
    rw [hp] at hb
    rcases popSteps_ok it fs f st1 hok hp with ⟨top, rest, rfl, h2, h3, h4⟩
    simp only at hb
    split at hb
    · split at hb
      · -- pushed: a fresh frame for `it` goes on top
        obtain rfl : st' = { item := it, children := [] } :: top :: rest :=
          (Option.some.inj hb).symm
        refine ⟨_, top :: rest, rfl, ?_, h4⟩
        exact ⟨⟨by simp, by simp⟩, h3, h2⟩
      · -- attached as a direct child of the top frame
        obtain rfl : st' =
            { top with children := top.children ++ [ItemTree.node it []] } :: rest :=
          (Option.some.inj hb).symm
        have htopOK : FrameOK { top with children :=
            top.children ++ [ItemTree.node it []] } :=
          frameOK_push top _ (stackOK_parts top rest h2).1 h3
            (GoodTree.node it [] (by simp) (by simp))
        refine ⟨_, rest, rfl, stackOK_replaceHead top _ rest rfl htopOK h2, ?_⟩
        rw [← h4]
        exact bottomItem_congr
          { top with children := top.children ++ [ItemTree.node it []] } top rfl rest
    · obtain rfl : st' = top :: rest := (Option.some.inj hb).symm
      exact ⟨top, rest, rfl, h2, h4⟩

theorem buildFrames_ok : ∀ (its : List Item) (f : Frame) (fs st' : List Frame),
    StackOK (f :: fs) → buildFrames (f :: fs) its = some st' →
    ∃ top rest, st' = top :: rest ∧ StackOK st' ∧
      bottomItem top rest = bottomItem f fs := by
  intro its
  induction its with
  | nil =>
    intro f fs st' hok hb
    simp only [buildFrames] at hb
    obtain rfl : st' = f :: fs := (Option.some.inj hb).symm
    exact ⟨f, fs, rfl, hok, rfl⟩
  | cons it rest ih =>
    intro f fs st' hok hb
    simp only [buildFrames] at hb
    cases hstep : buildStep (f :: fs) it with
    | none => rw [hstep] at hb; exact absurd hb (by simp)
    | some st2 =>
      rw [hstep] at hb
      rcases buildStep_ok it f fs st2 hok hstep with ⟨top2, rest2, rfl, h2, h4⟩
      rcases ih top2 rest2 st' h2 hb with ⟨top3, rest3, h5, h6, h7⟩
      exact ⟨top3, rest3, h5, h6, by rw [h7, h4]⟩

theorem popSteps_none (it : Item) : ∀ (fs : List Frame) (f : Frame),
    StackOK (f :: fs) → it.level ≤ (bottomItem f fs).level →
    popSteps it f fs = none := by
  intro fs
  induction fs with
  | nil =>
    intro f _ hle
    simp only [popSteps, bottomItem] at hle ⊢
    rw [if_pos hle]
  | cons g gs ih =>
    intro f hok hle
    have hbf : (bottomItem f (g :: gs)).level ≤ f.item.level := bottom_le _ f hok
    simp only [popSteps]
    rw [if_pos (by exact Nat.le_trans hle hbf)]
    have hgOK : FrameOK { g with children :=
        g.children ++ [ItemTree.node f.item f.children] } :=
      frameOK_push g _ (stackOK_parts g gs hok.2.2).1 hok.2.1 (goodTree_close f hok.1)
    have hok2 : StackOK ({ g with children :=
        g.children ++ [ItemTree.node f.item f.children] } :: gs) :=
      stackOK_replaceHead g _ gs rfl hgOK hok.2.2
    refine ih _ hok2 ?_
    rw [bottomItem_congr
      { g with children := g.children ++ [ItemTree.node f.item f.children] } g rfl gs]
    exact hle

theorem popSteps_some (it : Item) : ∀ (fs : List Frame) (f : Frame),
    StackOK (f :: fs) → (bottomItem f fs).level < it.level →
    (popSteps it f fs).isSome = true := by
  intro fs
  induction fs with
  | nil =>
    intro f _ hlt
    simp only [popSteps, bottomItem] at hlt ⊢
    rw [if_neg (by omega)]
    rfl
  | cons g gs ih =>
    intro f hok hlt
    simp only [popSteps]
    split
    · have hgOK : FrameOK { g with children :=
          g.children ++ [ItemTree.node f.item f.children] } :=
        frameOK_push g _ (stackOK_parts g gs hok.2.2).1 hok.2.1 (goodTree_close f hok.1)
      have hok2 : StackOK ({ g with children :=
          g.children ++ [ItemTree.node f.item f.children] } :: gs) :=
        stackOK_replaceHead g _ gs rfl hgOK hok.2.2
      refine ih _ hok2 ?_
      rw [bottomItem_congr
        { g with children := g.children ++ [ItemTree.node f.item f.children] } g rfl gs]
      exact hlt
    · rfl

theorem buildStep_isSome (it : Item) (f : Frame) (fs : List Frame)
    (hok : StackOK (f :: fs)) :
    ((buildStep (f :: fs) it).isSome = true ↔ (bottomItem f fs).level < it.level) := by
  constructor
  · intro h
    by_contra hle
    rw [buildStep, popLoop, popSteps_none it fs f hok (by omega)] at h
    simp at h
  · intro hlt
    have hps := popSteps_some it fs f hok hlt
    cases hp : popSteps it f fs with
    | none => rw [hp] at hps; simp at hps
    | some st1 =>
      rcases popSteps_ok it fs f st1 hok hp with ⟨top, rest, rfl, _, _, _⟩
      rw [buildStep, popLoop, hp]
      simp only
      split
      · split <;> rfl
      · rfl

theorem buildFrames_isSome : ∀ (its : List Item) (f : Frame) (fs : List Frame),
    StackOK (f :: fs) →
    ((buildFrames (f :: fs) its).isSome = true ↔
      ∀ it ∈ its, (bottomItem f fs).level < it.level) := by
  intro its
  induction its with
  | nil => intro f fs _; simp [buildFrames]
  | cons it rest ih =>
    intro f fs hok
    cases hstep : buildStep (f :: fs) it with
    | none =>
      have hbf : buildFrames (f :: fs) (it :: rest) = none := by
        simp only [buildFrames]
        rw [hstep]
      rw [hbf]
      simp only [Option.isSome_none]
      constructor
      · intro h
        simp at h
      · intro hall
        have hx := (buildStep_isSome it f fs hok).mpr (hall it (by simp))
        rw [hstep] at hx
        simp at hx
    | some st2 =>
      have hbf : buildFrames (f :: fs) (it :: rest) = buildFrames st2 rest := by
        simp only [buildFrames]
        rw [hstep]
      have hlt : (bottomItem f fs).level < it.level :=
        (buildStep_isSome it f fs hok).mp (by rw [hstep]; rfl)
      rcases buildStep_ok it f fs st2 hok hstep with ⟨top2, rest2, rfl, h2, h4⟩
      rw [hbf, ih top2 rest2 h2, h4]
      constructor
      · intro hall it2 hit2
        rcases List.mem_cons.mp hit2 with rfl | hit2
        · exact hlt
        · exact hall it2 hit2
      · intro hall it2 hit2
        exact hall it2 (List.mem_cons_of_mem _ hit2)

theorem scan_star_none (st : ScanState) (l : Str) (hl : st.linRev = [])
    (hstar : isListItemLine l = true) : scanLine st l = none := by
  unfold scanLine scanStripped
  unfold isListItemLine at hstar
  cases hps : pyStrip l with
  | nil => rw [hps] at hstar; simp at hstar
  | cons c cs =>
    rw [hps] at hstar
    simp only [decide_eq_true_eq] at hstar
    subst hstar
    rw [if_neg (by simp)]
    rw [if_neg (by simp [pyStartsWith, List.isPrefixOf])]
    simp [hl]

theorem scan_directive_ignored (st : ScanState) (l : Str) (cs : Str)
    (hm : st.mode = 0) (hd : pyStrip l = ':' :: cs) : scanLine st l = some st := by
  unfold scanLine scanStripped
  rw [hd]
  rw [if_neg (by simp)]
  rw [if_neg (by simp [pyStartsWith, List.isPrefixOf])]
  simp [hm]

theorem scan_keeps_no_item (st : ScanState) (l : Str)
    (hm : st.mode = 0) (hl : st.linRev = []) (hh : isHeaderLine l = false) :
    scanLine st l = none ∨
      ∃ st2, scanLine st l = some st2 ∧ st2.mode = 0 ∧ st2.linRev = [] := by
  unfold scanLine scanStripped
  unfold isHeaderLine at hh
  cases hps : pyStrip l with
  | nil =>
    refine Or.inr ⟨{ st with mode := if 0 < st.mode && st.mode ≤ 2 then st.mode + 1 else st.mode }, ?_, ?_, hl⟩
    · rw [if_pos rfl]
    · simp [hm]
  | cons c cs =>
    rw [hps] at hh
    simp only [decide_eq_true_eq, Bool.or_eq_false_iff, decide_eq_false_iff_not] at hh
    rw [if_neg (by simp)]
    by_cases hcm : pyStartsWith (c :: cs) (("//").data) = true
    · rw [if_pos hcm]
      exact Or.inr ⟨_, rfl, hm, hl⟩
    · rw [if_neg hcm]
      simp only
      by_cases hstar : c = '*'
      · rw [if_pos hstar, hl]
        exact Or.inl rfl
      · rw [if_neg hstar]
        by_cases hcol : c = ':'
        · rw [if_pos hcol]
          rw [if_neg (by simp [hm])]
          exact Or.inr ⟨st, rfl, hm, hl⟩
        · rw [if_neg hcol]
          rw [if_neg (by simp [hh.1, hh.2])]
          rw [hl]
          exact Or.inl rfl

theorem scanLines_star_none : ∀ (pre : List Str) (st : ScanState) (star : Str)
    (post : List Str), st.mode = 0 → st.linRev = [] →
    (∀ l ∈ pre, isHeaderLine l = false) → isListItemLine star = true →
    scanLines st (pre ++ star :: post) = none := by
  intro pre
  induction pre with
  | nil =>
    intro st star post hm hl _ hstar
    simp only [List.nil_append, scanLines]
    rw [scan_star_none st star hl hstar]
  | cons l pre2 ih =>
    intro st star post hm hl hpre hstar
    simp only [List.cons_append, scanLines]
    rcases scan_keeps_no_item st l hm hl (hpre l (by simp)) with h | ⟨st2, h, hm2, hl2⟩
    · rw [h]
    · rw [h]
      exact ih st2 star post hm2 hl2 (fun x hx => hpre x (by simp [hx])) hstar

theorem parse_star_before_header (pre : List Str) (star : Str) (post : List Str)
    (hpre : ∀ l ∈ pre, isHeaderLine l = false) (hstar : isListItemLine star = true) :
    parseDoc (pre ++ star :: post) = none := by
  unfold parseDoc scanDoc
  rw [scanLines_star_none pre initState star post rfl rfl hpre hstar]

theorem pySplitSep_ne_nil (sep : Char) : ∀ l : Str, pySplitSep sep l ≠ []
  | [] => by simp [pySplitSep]
  | c :: cs => by
    simp only [pySplitSep]
    cases hr : pySplitSep sep cs with
    | nil => exact absurd hr (pySplitSep_ne_nil sep cs)
    | cons r rs =>
      show (if c = sep then [] :: r :: rs else (c :: r) :: rs) ≠ []
      split <;> simp

theorem pySplitSep_headI (sep : Char) : ∀ l : Str,
    (pySplitSep sep l).headI = l.takeWhile (fun c => c != sep)
  | [] => by simp [pySplitSep]
  | c :: cs => by
    simp only [pySplitSep]
    cases hr : pySplitSep sep cs with
    | nil => exact absurd hr (pySplitSep_ne_nil sep cs)
    | cons r rs =>
      show ((if c = sep then [] :: r :: rs else (c :: r) :: rs)).headI =
        List.takeWhile (fun c => c != sep) (c :: cs)
      by_cases hc : c = sep
      · subst hc
        simp [List.takeWhile]
      · rw [if_neg hc]
        have hh := pySplitSep_headI sep cs
        rw [hr] at hh
        simp only [List.headI] at hh
        simp only [List.headI, List.takeWhile, hh]
        rw [show (c != sep) = true from by simp [hc]]

theorem pySplitSep_sepFree (sep : Char) (a : Str) (ha : ∀ c ∈ a, c ≠ sep) (l : Str) :
    pySplitSep sep (a ++ sep :: l) = a :: pySplitSep sep l := by
  revert ha
  induction a with
  | nil =>
    intro _
    simp only [List.nil_append, pySplitSep]
    cases hr : pySplitSep sep l with
    | nil => exact absurd hr (pySplitSep_ne_nil sep l)
    | cons r rs => simp
  | cons c a2 ih =>
    intro ha
    have ih2 := ih (fun x hx => ha x (by simp [hx]))
    simp only [List.cons_append, pySplitSep]
    have ih3 : pySplitSep sep (a2.append (sep :: l)) = a2 :: pySplitSep sep l := ih2
    rw [ih3]
    show (if c = sep then [] :: a2 :: pySplitSep sep l
      else (c :: a2) :: pySplitSep sep l) = (c :: a2) :: pySplitSep sep l
    rw [if_neg (ha c (by simp))]

theorem attrStr_no_colon (a : AttrName) : ∀ c ∈ attrStr a, c ≠ ':' := by
  cases a <;> decide

theorem findAttr_attrStr (a : AttrName) (v : Str) :
    findAttr (':' :: attrStr a ++ ':' :: v) = some a := by
  cases a <;> simp [attrStr, findAttr, pyStartsWith, List.isPrefixOf]

theorem directiveValue_attr (name : Str) (hname : ∀ c ∈ name, c ≠ ':') (v : Str) :
    directiveValue (':' :: name ++ ':' :: v) =
      pyStrip (v.takeWhile (fun c => c != ':')) := by
  have h1 : (':' :: name ++ ':' :: v) = [] ++ ':' :: (name ++ ':' :: v) := rfl
  unfold directiveValue
  rw [h1, pySplitSep_sepFree ':' [] (by simp) _, pySplitSep_sepFree ':' name hname v]
  cases hr : pySplitSep ':' v with
  | nil => exact absurd hr (pySplitSep_ne_nil ':' _)
  | cons r rs =>
    have hh := pySplitSep_headI ':' v
    rw [hr] at hh
    simp only [List.headI] at hh
    simp only [List.getD, List.get?]
    rw [hh]
    rfl

theorem parseDoc_inv (lines : List Str) (p : Parsed) (h : parseDoc lines = some p) :
    ∃ st, scanDoc lines = some st ∧
      p.linear = (st.linRev.reverse).map fixupItem ∧
      p.strings = p.linear.foldl registerItemStrings [] ∧
      p.keys = st.keys ∧
      assemble p.linear = some p.root := by
  unfold parseDoc at h
  cases hs : scanDoc lines with
  | none => rw [hs] at h; exact absurd h (by simp)
  | some st =>
    rw [hs] at h
    simp only at h
    cases ha : assemble ((st.linRev.reverse).map fixupItem) with
    | none => rw [ha] at h; exact absurd h (by simp)
    | some r =>
      rw [ha] at h
      obtain rfl : p = Parsed.mk r
          (((st.linRev.reverse).map fixupItem).foldl registerItemStrings [])
          ((st.linRev.reverse).map fixupItem) st.keys :=
        (Option.some.inj h).symm
      exact ⟨st, rfl, rfl, rfl, rfl, ha⟩

theorem pySplit1_header (t : Str) :
    pySplit1 ' ' ('=' :: '=' :: '=' :: '=' :: ' ' :: t) =
      (['=', '=', '=', '='], some t) := by
  simp [pySplit1]

theorem mkItem_leaf (t : Str) :
    mkItem (("==== ").data ++ t) =
      match boolSuffixMatch t with
      | some b =>
        some { blankItem 4 with
            type' := ("CheckBoxPreference").data,
            defaultValue := ("false").data,
            title := pyStrip (pyDropLast b.length t) }
      | none =>
        some { blankItem 4 with type' := ("EditTextPreference").data, title := t } := by
  cases hb : boolSuffixMatch t <;>
    simp [mkItem, pySplit1_header, hb, TYPES,
      show (("====").data).length = 4 from rfl]

/-- C10: for every recognized attribute directive line `:name: value`
(with `name` ranging over all of `Item.ATTRS`, rendered by `attrStr`)
applied to the current item outside a comment region, the value handed to
the attribute store is exactly the text between the second and third
colon characters of the line, stripped — so a value that itself contains
a colon is silently truncated at that colon.  For the eight string-typed
attributes `setAttr` stores that truncated value into the named field; a
`:level:` directive computes the same truncated value but its store is
the documented typed-embedding failure. -/
theorem c10_directive_value_truncated (st : ScanState) (it : Item) (rest : List Item)
    (a : AttrName) (v : Str) (hlin : st.linRev = it :: rest) (hm : st.mode ≠ 0)
    (hic : st.inComment = false) :
    scanStripped st (':' :: attrStr a ++ ':' :: v) =
      (setAttr a (pyStrip (v.takeWhile (fun c => c != ':'))) it).map
        (fun it2 => { st with linRev := it2 :: rest }) := by
  unfold scanStripped
  rw [if_neg (by simp)]
  rw [if_neg (by simp [pyStartsWith, List.isPrefixOf])]
  simp only [hlin, if_pos hm, findAttr_attrStr a v, hic,
    directiveValue_attr (attrStr a) (attrStr_no_colon a) v]
  split
  · rename_i heq
    exact absurd heq (by simp)
  · rename_i c tail heq
    injection heq with h1 h2
    subst h1
    rw [if_neg (by decide), if_pos rfl, if_neg (by decide)]

/-- C1: the claim says the leaf's `defaultValue` becomes `"1"` (the index
of the `(default)`-flagged entry) with display entries
`["Low", "Medium", "High"]`.  The code initializes `n = 0` and never
increments it in the scan loop, so it stores `defaultValue = "0"` and
strips the nine-character suffix from entry 0 instead, turning `"Low"`
into `""` and leaving `"Medium (default)"` untouched: evaluating the
parser on the example input shows the divergence. -/
theorem c1_list_default_bug :
    (parseDoc c1doc).map (fun p => p.linear.map (fun i => (i.defaultValue, i.listItems))) =
      some [([], []),
        (("0").data, [[], ("Medium (default)").data, ("High").data])] := by decide

/-- C2: the source's tree assembly (`assemble`) coincides with the
algorithm exactly as the specification words it (`specAssemble`): root
pushed first; pop while the top's level ≥ the current item's level; attach
when the new top's level ≤ the current item's level; push only strictly
deeper items below the leaf level 4. -/
theorem c2_assembly_follows_spec (items : List Item) :
    assemble items = specAssemble items := by
  cases items with
  | nil => rfl
  | cons r rest => simp only [assemble, specAssemble, buildFrames_eq_spec]

/-- C3: in any tree the parser produces, every non-root node's parent has
a strictly smaller level than the node itself (`GoodTree`), so the levels
along every root-to-node ancestor path are strictly increasing and no two
ancestors of a node share a level. -/
theorem c3_tree_levels_increase (lines : List Str) (p : Parsed) (t : ItemTree)
    (hp : parseDoc lines = some p) (ht : p.root = some t) : GoodTree t := by
  obtain ⟨st, _, _, _, _, hasm⟩ := parseDoc_inv lines p hp
  cases hlin : p.linear with
  | nil =>
    rw [hlin] at hasm
    unfold assemble at hasm
    have h0 : (none : Option ItemTree) = p.root := by simpa using hasm
    rw [← h0] at ht
    simp at ht
  | cons r rest =>
    rw [hlin] at hasm
    unfold assemble at hasm
    cases hbf : buildFrames [{ item := r, children := [] }] rest with
    | none => simp only [hbf] at hasm; simp at hasm
    | some stack =>
      cases stack with
      | nil => simp only [hbf] at hasm; simp at hasm
      | cons f fs =>
        simp only [hbf] at hasm
        have hroot : some (some (collapse f fs)) = some p.root := hasm
        have hct : collapse f fs = t := by
          have h2 := Option.some.inj hroot
          rw [← h2] at ht
          exact Option.some.inj ht
        rw [← hct]
        have hok0 : StackOK [{ item := r, children := [] }] := ⟨by simp, by simp⟩
        rcases buildFrames_ok rest { item := r, children := [] } [] (f :: fs) hok0 hbf
          with ⟨top, rest2, heq, hok, _⟩
        cases heq
        exact collapse_good fs f hok

theorem c3_tree_levels_increase_witness : GoodTree c3tree :=
  c3_tree_levels_increase c3doc c3parsed c3tree (by rfl) (by rfl)

/-- C9: tree assembly succeeds exactly when every item after the first is
strictly deeper than the first (root) item — otherwise the pop loop
empties the stack and the `stack[-1]` access fails.  In particular a
document with a second level-1 header after the root makes the whole
parse fail, so successful assembly presupposes a single top-level
header. -/
theorem c9_single_root_precondition :
    (∀ (r : Item) (its : List Item),
      (buildFrames [{ item := r, children := [] }] its).isSome = true ↔
        ∀ it ∈ its, r.level < it.level) ∧
    parseDoc c9doc = none := by
  constructor
  · intro r its
    exact buildFrames_isSome its { item := r, children := [] } [] ⟨by simp, by simp⟩
  · rfl

theorem c9_single_root_precondition_witness :
    (buildFrames [{ item := blankItem 1, children := [] }] [blankItem 4]).isSome = true := by
  refine (c9_single_root_precondition.1 (blankItem 1) [blankItem 4]).2 ?_
  intro it hit
  rcases List.mem_singleton.mp hit with rfl
  decide

/-- C4 counterexample: the claim asserts no two string-table entries share
a generated identifier, but parsing `c4doc` registers the two distinct
strings `"Foo"` and `"foo"`, both of which slug to the identifier `foo`:
the emitted table contains two entries with the same `name`. -/
theorem c4_duplicate_identifier_counterexample :
    (parseDoc c4doc).map Parsed.strings =
      some [(("Foo").data, ("foo").data), (("foo").data, ("foo").data)] ∧
    ("Foo").data ≠ ("foo").data := by
  constructor
  · decide
  · decide

/-- C4 (amended): for every successfully parsed input, the string-resource
output holds exactly one `<string>` line per distinct non-empty
title/summary string, emitted sorted lexicographically by the full
rendered line; identifiers, however, are not guaranteed unique. -/
theorem c4_string_entries_sorted_count (lines : List Str) (p : Parsed)
    (hp : parseDoc lines = some p) :
    (stringEntryLines p.strings).length = (distinctStrings p.linear).length ∧
    List.Pairwise (fun a b => pyStrLE a b = true) (stringEntryLines p.strings) := by
  obtain ⟨st, _, _, hstr, _, _⟩ := parseDoc_inv lines p hp
  constructor
  · rw [hstr]
    unfold stringEntryLines
    rw [pySort_length, List.length_map]
    exact table_length_eq_distinct p.linear
  · exact pySort_pairwise _

theorem c4_string_entries_sorted_count_witness :
    (stringEntryLines c4parsed.strings).length = (distinctStrings c4parsed.linear).length ∧
    List.Pairwise (fun a b => pyStrLE a b = true) (stringEntryLines c4parsed.strings) :=
  c4_string_entries_sorted_count c4doc c4parsed (by rfl)

/-- C5 counterexample: the claim says a directive line before any header
is signaled as a structural error, but the scanner's `:` branch is a
silent no-op while the mode is still SEARCHING: parsing `c5doc`
succeeds. -/
theorem c5_directive_before_header_counterexample :
    (parseDoc c5doc).isSome = true := by decide

/-- C5 (amended): a list-item line appearing before any item exists makes
the parse fail (the source dies on the `linear[-1]` index error, modelled
as `none`), whatever comes after; a directive line appearing before any
header, however, is silently ignored — the scanner state is returned
unchanged — rather than signaled as an error. -/
theorem c5_structural_errors :
    (∀ (pre : List Str) (star : Str) (post : List Str),
      (∀ l ∈ pre, isHeaderLine l = false) → isListItemLine star = true →
      parseDoc (pre ++ star :: post) = none) ∧
    (∀ (st : ScanState) (l : Str) (cs : Str), st.mode = 0 → pyStrip l = ':' :: cs →
      scanLine st l = some st) := by
  constructor
  · intro pre star post hpre hstar
    exact parse_star_before_header pre star post hpre hstar
  · intro st l cs hm hd
    exact scan_directive_ignored st l cs hm hd

theorem c5_structural_errors_witness :
    parseDoc ([] ++ (("* x").data) :: []) = none := by
  refine c5_structural_errors.1 [] (("* x").data) [] ?_ (by decide)
  intro l hl
  simp at hl

/-- C6: a level-4 leaf header whose title (uppercased) ends in one of the
boolean suffixes `(Y/N)`, `(T/F)`, `(ON/OFF)` is classified
`CheckBoxPreference` with the suffix stripped from the stored title and
`defaultValue` set to `"false"`; a level-4 leaf without such a suffix is
classified `EditTextPreference`.  `boolSuffixMatch` is the source's
suffix scan, and its success is exactly "some boolean suffix matches". -/
theorem c6_boolean_suffix (t : Str) :
    ((boolSuffixMatch t).isSome = BOOLEANS.any (fun b => pyEndsWith (pyUpper t) b)) ∧
    (∀ b, boolSuffixMatch t = some b →
      mkItem (("==== ").data ++ t) =
        some { blankItem 4 with
            type' := ("CheckBoxPreference").data,
            defaultValue := ("false").data,
            title := pyStrip (pyDropLast b.length t) }) ∧
    (boolSuffixMatch t = none →
      mkItem (("==== ").data ++ t) =
        some { blankItem 4 with
            type' := ("EditTextPreference").data, title := t }) := by
  refine ⟨?_, ?_, ?_⟩
  · by_cases h1 : pyEndsWith (pyUpper t) (("(Y/N)").data) = true <;>
      by_cases h2 : pyEndsWith (pyUpper t) (("(T/F)").data) = true <;>
      by_cases h3 : pyEndsWith (pyUpper t) (("(ON/OFF)").data) = true <;>
      simp [boolSuffixMatch, BOOLEANS, h1, h2, h3]
  · intro b hb
    rw [mkItem_leaf, hb]
  · intro hb
    rw [mkItem_leaf, hb]

theorem c6_boolean_suffix_witness :
    mkItem (("==== Enable notifications (Y/N)").data) =
      some { blankItem 4 with
          type' := ("CheckBoxPreference").data,
          defaultValue := ("false").data,
          title := ("Enable notifications").data } := by
  have h := (c6_boolean_suffix (("Enable notifications (Y/N)").data)).2.1
    ((("(Y/N)").data)) (by decide)
  exact h

/-- C7 counterexample: the claim's example title `"Class Import"` slugs to
`class_import`, which is not a Java keyword, so its identifier is the
bare slug and not underscore-wrapped, contrary to the claim's assertion
about that input. -/
theorem c7_keyword_example_counterexample :
    makeStringRef (("Class Import").data) = ("class_import").data ∧
    ¬ (("class_import").data ∈ JAVA_KEYWORDS) := by
  constructor
  · decide
  · decide

/-- C7 (amended): for every string whose slug equals a reserved Java
keyword (for example a leaf titled `"Import"`), the generated identifier
is the slug wrapped in underscores, not the bare keyword; for every
string whose slug is not a keyword (such as `"Class Import"`, whose slug
`class_import` is no keyword), the identifier is the bare slug. -/
theorem c7_keyword_wrap (s : Str) :
    (makeSlug s ∈ JAVA_KEYWORDS →
      makeStringRef s = '_' :: makeSlug s ++ ("_").data) ∧
    (makeSlug s ∉ JAVA_KEYWORDS → makeStringRef s = makeSlug s) := by
  constructor <;> intro h <;> simp [makeStringRef, h]

theorem c7_keyword_wrap_witness :
    makeStringRef (("Import").data) = '_' :: makeSlug (("Import").data) ++ ("_").data :=
  (c7_keyword_wrap (("Import").data)).1 (by decide)

/-- C8: an explicitly declared `:key:` survives the fixup pass unchanged
(no slug is derived from the title), a missing key defaults to the
`makeKey` slug of the title, and the summary that reaches the string
table is the scanned summary with one trailing period stripped (or is
cleared outright for root/screen/category items, which register no
summary).  On the scenario document the settings-class key constant line
carries the declared key `foo` verbatim, and the leaf's summary is
registered period-stripped. -/
theorem c8_keys_and_summary :
    (∀ it : Item, it.key ≠ [] → (fixupItem it).key = it.key) ∧
    (∀ it : Item, it.key = [] → (fixupItem it).key = makeKey it.title) ∧
    (∀ it : Item, (fixupItem it).summary = stripDot it.summary ∨
      (fixupItem it).summary = []) ∧
    (parseDoc c8doc).map settingsKeyLines =
      some [("    public static final String PREF_FOO = \"foo\";\n").data] ∧
    (parseDoc c8doc).map (fun p => p.strings.map Prod.fst) =
      some [("Foo Bar.").data, ("The summary text").data] := by
  refine ⟨?_, ?_, ?_, by decide, by decide⟩
  · intro it h
    rw [fixupItem_key, if_neg h]
  · intro it h
    rw [fixupItem_key, if_pos h]
  · intro it
    exact fixupItem_summary it

theorem c8_keys_and_summary_witness :
    (fixupItem c8item).key = c8item.key ∧
    (fixupItem { blankItem 4 with title := ("T").data }).key =
      makeKey (("T").data) ∧
    ((fixupItem c8item).summary = stripDot c8item.summary ∨
      (fixupItem c8item).summary = []) :=
  ⟨c8_keys_and_summary.1 c8item (by decide),
   c8_keys_and_summary.2.1 { blankItem 4 with title := ("T").data } (by decide),
   c8_keys_and_summary.2.2.1 c8item⟩

theorem c10_directive_value_truncated_witness :
    scanStripped { linRev := [blankItem 4], mode := 1, inComment := false, keys := [] }
        ((":key: http://example.com").data) =
      some { linRev := [{ blankItem 4 with key := ("http").data }], mode := 1,
             inComment := false, keys := [] } := by
  have h := c10_directive_value_truncated
    { linRev := [blankItem 4], mode := 1, inComment := false, keys := [] }
    (blankItem 4) [] AttrName.key ((" http://example.com").data) rfl (by decide) rfl
  exact h
